import Mathlib

/-!
Verification of `src/v2/normalized_packages.py` from f8a-server-backbone.

The file embeds the two classes `NormalizedPackages` and `GoNormalizedPackages`
as pure Lean functions and proves the behavioural claims made by the
specification about them.  The two external collaborators from `f8a_utils`
(`GolangDependencyTreeGenerator.clean_version` and
`GithubUtils.is_pseudo_version`) are abstracted as function parameters
`cv : String → String × String` (auxiliary metadata, cleaned version) and
`ip : String → Bool`, as the spec instructs ("external collaborators",
deterministic and pure).
-/

/-- Modelled from the spec: the `Package` model lives in `src/v2/models.py`,
which is not part of the sources here.  Spec §3: "Package identity: an
immutable pair (name, version).  Two package identities are equal iff both
fields match exactly ...  a package's own dependency list is never part of
its identity."  This structure is that identity; it is what the Python code
stores as dictionary keys and set elements. -/
structure Package where
  name : String
  version : String
deriving DecidableEq, Repr

/-- Modelled from the spec: the `Ecosystem` enumeration of `src/v2/models.py`
is not part of the sources here.  The spec speaks of "several supported
package ecosystems" with one "module-based" one (Go modules). -/
inductive Ecosystem
  | npm
  | pypi
  | maven
  | golang
deriving DecidableEq, Repr

/-- A raw dependency record: only `name` and `version` of a dependency are
ever read by the code (spec §3: "only their identity is captured"). -/
structure Dep where
  name : String
  version : String
deriving DecidableEq, Repr

/-- A raw top-level package record as received: `name`, `version` and an
optional dependency list (`package.dependencies` may be `None`). -/
structure RawPackage where
  name : String
  version : String
  dependencies : Option (List Dep)
deriving DecidableEq, Repr

/-- The dependency graph `self._dependency_graph`: an insertion-ordered
mapping from package identity to its set of direct dependency identities,
embedded as an association list with unique keys. -/
abbrev DepGraph := List (Package × Finset Package)

/-- Embeds the line
`self._dependency_graph[package_clone] = self._dependency_graph[package_clone] or set()`:
on a `defaultdict(set)` this ensures the key is present and keeps any
previously recorded (non-empty) dependency set. -/
def setDefault : DepGraph → Package → DepGraph
  | [], k => [(k, ∅)]
  | (k', s) :: rest, k =>
    if k = k' then (k', s) :: rest else (k', s) :: setDefault rest k

/-- Embeds `self._dependency_graph[package].add(trans_clone)` on a
`defaultdict(set)`: add `v` to the bucket of `k`, creating the bucket when
absent. -/
def addEdge : DepGraph → Package → Package → DepGraph
  | [], k, v => [(k, {v})]
  | (k', s) :: rest, k, v =>
    if k = k' then (k', insert v s) :: rest else (k', s) :: addEdge rest k v

/-- Dictionary lookup in the graph, defaulting to the empty dependency set. -/
def lookupDeps : DepGraph → Package → Finset Package
  | [], _ => ∅
  | (k', s) :: rest, k => if k = k' then s else lookupDeps rest k

/-- Embeds `frozenset(self._dependency_graph.keys())` (the `_directs`). -/
def directsOf (g : DepGraph) : Finset Package :=
  (g.map Prod.fst).toFinset

/-- Embeds
`{d for dep in self._dependency_graph.values() for d in dep}` (the
`_transtives`, keeping the source's spelling): the union of all value sets. -/
def transitivesOf : DepGraph → Finset Package
  | [] => ∅
  | (_, s) :: rest => s ∪ transitivesOf rest

/-- Identity-only clone of a top-level package:
`Package(name=package.name, version=package.version)`. -/
def clonePkg (p : RawPackage) : Package := ⟨p.name, p.version⟩

/-- Identity-only clone of a dependency record:
`Package(name=trans_package.name, version=trans_package.version)`. -/
def depClone (d : Dep) : Package := ⟨d.name, d.version⟩

/-- One iteration of the generic `NormalizedPackages.__init__` loop body:
register the package clone as a key, then add each dependency clone to its
bucket.  Note the source has no ecosystem-specific branch here: name and
version are used exactly as received. -/
def processPackage (g : DepGraph) (p : RawPackage) : DepGraph :=
  (p.dependencies.getD []).foldl
    (fun g2 d => addEdge g2 (clonePkg p) (depClone d))
    (setDefault g (clonePkg p))

/-- The whole generic construction loop over the input list. -/
def buildGraph (ps : List RawPackage) : DepGraph :=
  ps.foldl processPackage []

/-- The generic `NormalizedPackages` object after construction, with the
derived views computed eagerly as in the source (`_transtives`, `_directs`,
`_all = _directs.union(_transtives)`). -/
structure NormalizedPackages where
  ecosystem : Ecosystem
  dependency_graph : DepGraph
  transtives : Finset Package
  directs : Finset Package
  all : Finset Package
deriving DecidableEq

/-- Embeds `NormalizedPackages.__init__(packages, ecosystem)`. -/
def NormalizedPackages.construct (ps : List RawPackage) (e : Ecosystem) :
    NormalizedPackages :=
  ⟨e, buildGraph ps, transitivesOf (buildGraph ps), directsOf (buildGraph ps),
   directsOf (buildGraph ps) ∪ transitivesOf (buildGraph ps)⟩

/-- The two ways `GoNormalizedPackages.get_golang_metadata` can fail:
`badRequest` is the explicit `raise BadRequest(...)` (the spec's
`InvalidIdentifier`); `valueError` is the implicit tuple-unpacking
`ValueError` of `package.name.split("@")` when the split yields more than
two parts. -/
inductive GoError
  | badRequest
  | valueError
deriving DecidableEq, Repr

deriving instance DecidableEq for Except

/-- Python's `str.split(sep)` for a single-character separator, on the
character list of the string: splits into the (count + 1) pieces between
occurrences of `sep`. -/
def splitChar (sep : Char) : List Char → List (List Char)
  | [] => [[]]
  | c :: rest =>
    match splitChar sep rest with
    | [] => [[]]
    | p :: ps => if c = sep then [] :: p :: ps else (c :: p) :: ps

/-- Embeds `GoNormalizedPackages.get_golang_metadata`: require an `@` in the
name (else `BadRequest`), two-way unpack of `name.split("@")` (a third piece
raises `ValueError`), clean the version through the external collaborator
`cv` discarding the auxiliary first component, and return
`(bare name, cleaned version, module)`. -/
def get_golang_metadata (cv : String → String × String) (name version : String) :
    Except GoError (String × String × String) :=
  match splitChar '@' name.toList with
  | [_] => .error .badRequest
  | [n, m] => .ok (String.mk n, (cv version).2, String.mk m)
  | _ => .error .valueError

/-- Python dict assignment `d[k] = v` on an insertion-ordered association
list: update in place if the key exists, else append. -/
def mapInsert : List (String × String) → String → String → List (String × String)
  | [], k, v => [(k, v)]
  | (k', v') :: rest, k, v =>
    if k = k' then (k, v) :: rest else (k', v') :: mapInsert rest k v

/-- Python dict lookup `d[k]` on the association list. -/
def mapLookup : List (String × String) → String → Option String
  | [], _ => none
  | (k', v') :: rest, k => if k = k' then some v' else mapLookup rest k

/-- The mutable state accumulated by the `GoNormalizedPackages.__init__`
loop: the dependency graph, `self._modules`, `self._version_map`, and
`self.pseudo`. -/
structure GoState where
  graph : DepGraph
  modules : List String
  version_map : List (String × String)
  pseudo : Finset Package
deriving DecidableEq

/-- The body of the inner (dependency) loop of
`GoNormalizedPackages.__init__`, for outer package clone `c`: parse the
dependency, and if its cleaned version is pseudo, append its module, map its
bare name to its cleaned version, and add the OUTER clone `c` (not the
dependency's clone) to the pseudo set; finally add the dependency clone to
the outer package's bucket. -/
def goProcessDep (cv : String → String × String) (ip : String → Bool)
    (c : Package) (st : GoState) (d : Dep) : Except GoError GoState :=
  match get_golang_metadata cv d.name d.version with
  | .error e => .error e
  | .ok (n, v, m) =>
    let st1 := if ip v then
        { st with modules := st.modules ++ [m],
                  version_map := mapInsert st.version_map n v,
                  pseudo := insert c st.pseudo }
      else st
    .ok { st1 with graph := addEdge st1.graph c (Package.mk n v) }

/-- The inner (dependency) loop with fail-fast exception propagation. -/
def goDepLoop (cv : String → String × String) (ip : String → Bool)
    (c : Package) : GoState → List Dep → Except GoError GoState
  | st, [] => .ok st
  | st, d :: ds =>
    match goProcessDep cv ip c st d with
    | .error e => .error e
    | .ok st' => goDepLoop cv ip c st' ds

/-- The body of the outer loop of `GoNormalizedPackages.__init__`: parse the
top-level package (mutating its name/version to the bare/cleaned form, so
its identity thereafter equals the clone's), record module / version map /
pseudo set when its cleaned version is pseudo, register the clone as a graph
key, then run the dependency loop keyed on the clone. -/
def goProcessPackage (cv : String → String × String) (ip : String → Bool)
    (st : GoState) (p : RawPackage) : Except GoError GoState :=
  match get_golang_metadata cv p.name p.version with
  | .error e => .error e
  | .ok (n, v, m) =>
    let c := Package.mk n v
    let st1 := if ip v then
        { st with modules := st.modules ++ [m],
                  version_map := mapInsert st.version_map n v,
                  pseudo := insert c st.pseudo }
      else st
    let st2 := { st1 with graph := setDefault st1.graph c }
    goDepLoop cv ip c st2 (p.dependencies.getD [])

/-- The whole outer loop with fail-fast exception propagation. -/
def goBuildAux (cv : String → String × String) (ip : String → Bool) :
    GoState → List RawPackage → Except GoError GoState
  | st, [] => .ok st
  | st, p :: ps =>
    match goProcessPackage cv ip st p with
    | .error e => .error e
    | .ok st' => goBuildAux cv ip st' ps

/-- The `GoNormalizedPackages` object after a fully successful construction,
with the derived views (`_transtives`, `_directs`, `_all`,
`_all_except_pseudo = _all.difference(pseudo)`) computed eagerly. -/
structure GoNormalizedPackages where
  ecosystem : Ecosystem
  dependency_graph : DepGraph
  modules : List String
  version_map : List (String × String)
  pseudo : Finset Package
  transtives : Finset Package
  directs : Finset Package
  all : Finset Package
  all_except_pseudo : Finset Package
deriving DecidableEq

/-- Embeds `GoNormalizedPackages.__init__(packages, ecosystem)`: either the
fully built object or the exception that aborted construction; no partial
state is ever produced. -/
def goNormalize (cv : String → String × String) (ip : String → Bool)
    (ps : List RawPackage) (e : Ecosystem) :
    Except GoError GoNormalizedPackages :=
  match goBuildAux cv ip ⟨[], [], [], ∅⟩ ps with
  | .error er => .error er
  | .ok st =>
    .ok ⟨e, st.graph, st.modules, st.version_map, st.pseudo,
         transitivesOf st.graph, directsOf st.graph,
         directsOf st.graph ∪ transitivesOf st.graph,
         (directsOf st.graph ∪ transitivesOf st.graph) \ st.pseudo⟩

/-- `self._all_except_pseudo` exposed through the
`all_deps_without_pseudo` property (as a set; the tuple order is
irrelevant to every claim). -/
def GoNormalizedPackages.all_deps_without_pseudo (g : GoNormalizedPackages) :
    Finset Package :=
  g.all_except_pseudo

/-- Concrete version-cleaning collaborator used by the witnesses: no
auxiliary metadata, version returned unchanged. -/
def cvW : String → String × String := fun v => ("", v)

/-- Concrete pseudo-version classifier used by the witnesses: exactly the
version string "vp" is pseudo. -/
def ipW : String → Bool := fun v => v == "vp"

/-- Concrete input list used by the witnesses: one top-level package
`a@m1` at version `v0` with one pseudo-versioned dependency `b@m2` at
version `vp`. -/
def psW : List RawPackage := [⟨"a@m1", "v0", some [⟨"b@m2", "vp"⟩]⟩]

/-- The `GoNormalizedPackages` object that `goNormalize cvW ipW psW golang`
evaluates to. -/
def gW : GoNormalizedPackages :=
  ⟨Ecosystem.golang, [(⟨"a", "v0"⟩, {⟨"b", "vp"⟩})], ["m2"], [("b", "vp")],
   {⟨"a", "v0"⟩}, {⟨"b", "vp"⟩}, {⟨"a", "v0"⟩},
   {⟨"a", "v0"⟩, ⟨"b", "vp"⟩}, {⟨"b", "vp"⟩}⟩

/-- `str.split` never yields an empty piece list. -/
theorem splitChar_ne_nil (sep : Char) (cs : List Char) :
    splitChar sep cs ≠ [] := by
  cases cs with
  | nil => simp [splitChar]
  | cons c rest =>
    simp only [splitChar]
    cases h : splitChar sep rest with
    | nil => simp
    | cons p ps => by_cases hc : c = sep <;> simp [hc]

/-- Splitting on a character absent from the string gives the whole string
as the single piece. -/
theorem splitChar_eq_single (sep : Char) (cs : List Char) (h : sep ∉ cs) :
    splitChar sep cs = [cs] := by
  induction cs with
  | nil => simp [splitChar]
  | cons c rest ih =>
    simp only [List.mem_cons, not_or] at h
    have hc : c ≠ sep := fun hc => h.1 hc.symm
    simp [splitChar, ih h.2, hc]

/-- The number of pieces is one more than the number of separators. -/
theorem splitChar_length (sep : Char) (cs : List Char) :
    (splitChar sep cs).length = cs.count sep + 1 := by
  induction cs with
  | nil => simp [splitChar]
  | cons c rest ih =>
    simp only [splitChar]
    cases h : splitChar sep rest with
    | nil => exact absurd h (splitChar_ne_nil sep rest)
    | cons p ps =>
      rw [h] at ih
      simp only [List.length_cons] at ih
      by_cases hc : c = sep <;>
        simp [hc, List.count_cons] <;> omega

/-- `directsOf` on a cons cell. -/
theorem directsOf_cons (e : Package × Finset Package) (g : DepGraph) :
    directsOf (e :: g) = insert e.1 (directsOf g) := by
  simp [directsOf]

/-- The `g[k] = g[k] or set()` line never changes any recorded dependency
set. -/
theorem lookupDeps_setDefault (g : DepGraph) (k k' : Package) :
    lookupDeps (setDefault g k) k' = lookupDeps g k' := by
  induction g with
  | nil => by_cases h : k' = k <;> simp [setDefault, lookupDeps, h]
  | cons e rest ih =>
    obtain ⟨k2, s⟩ := e
    by_cases h : k = k2
    · simp [setDefault, h]
    · by_cases h2 : k' = k2 <;> simp [setDefault, lookupDeps, h, h2, ih]

/-- The `g[k] = g[k] or set()` line registers exactly the key `k`. -/
theorem directsOf_setDefault (g : DepGraph) (k : Package) :
    directsOf (setDefault g k) = insert k (directsOf g) := by
  induction g with
  | nil => simp [setDefault, directsOf]
  | cons e rest ih =>
    obtain ⟨k2, s⟩ := e
    by_cases h : k = k2
    · simp [setDefault, h, directsOf_cons]
    · simp only [setDefault, if_neg h, directsOf_cons, ih]
      exact (Finset.Insert.comm _ _ _).symm

/-- The `g[k] = g[k] or set()` line adds no dependency value. -/
theorem transitivesOf_setDefault (g : DepGraph) (k : Package) :
    transitivesOf (setDefault g k) = transitivesOf g := by
  induction g with
  | nil => simp [setDefault, transitivesOf]
  | cons e rest ih =>
    obtain ⟨k2, s⟩ := e
    by_cases h : k = k2 <;> simp [setDefault, h, transitivesOf, ih]

/-- Adding an edge updates exactly the bucket of its key. -/
theorem lookupDeps_addEdge_self (g : DepGraph) (k v : Package) :
    lookupDeps (addEdge g k v) k = insert v (lookupDeps g k) := by
  induction g with
  | nil => simp [addEdge, lookupDeps]
  | cons e rest ih =>
    obtain ⟨k2, s⟩ := e
    by_cases h : k = k2
    · simp [addEdge, h, lookupDeps]
    · simp [addEdge, h, lookupDeps, ih]

/-- Adding an edge leaves every other bucket unchanged. -/
theorem lookupDeps_addEdge_other (g : DepGraph) (k v k' : Package)
    (h : k' ≠ k) :
    lookupDeps (addEdge g k v) k' = lookupDeps g k' := by
  induction g with
  | nil => simp [addEdge, lookupDeps, h]
  | cons e rest ih =>
    obtain ⟨k2, s⟩ := e
    by_cases h2 : k = k2
    · subst h2
      simp [addEdge, lookupDeps, h]
    · by_cases h3 : k' = k2 <;> simp [addEdge, lookupDeps, h2, h3, ih]

/-- Adding an edge registers exactly the key of the edge. -/
theorem directsOf_addEdge (g : DepGraph) (k v : Package) :
    directsOf (addEdge g k v) = insert k (directsOf g) := by
  induction g with
  | nil => simp [addEdge, directsOf]
  | cons e rest ih =>
    obtain ⟨k2, s⟩ := e
    by_cases h : k = k2
    · simp [addEdge, h, directsOf_cons]
    · simp only [addEdge, if_neg h, directsOf_cons, ih]
      exact (Finset.Insert.comm _ _ _).symm

/-- Adding an edge adds exactly its value to the union of all buckets. -/
theorem transitivesOf_addEdge (g : DepGraph) (k v : Package) :
    transitivesOf (addEdge g k v) = insert v (transitivesOf g) := by
  induction g with
  | nil => simp [addEdge, transitivesOf]
  | cons e rest ih =>
    obtain ⟨k2, s⟩ := e
    by_cases h : k = k2
    · simp [addEdge, h, transitivesOf, Finset.insert_union]
    · simp [addEdge, h, transitivesOf, ih, Finset.union_insert]

/-- Every member of a bucket is a member of the transitive set. -/
theorem mem_transitivesOf_of_mem_lookupDeps (g : DepGraph) (k x : Package)
    (hx : x ∈ lookupDeps g k) : x ∈ transitivesOf g := by
  induction g with
  | nil => simp [lookupDeps] at hx
  | cons e rest ih =>
    obtain ⟨k2, s⟩ := e
    simp only [lookupDeps] at hx
    simp only [transitivesOf, Finset.mem_union]
    by_cases h : k = k2
    · rw [if_pos h] at hx
      exact Or.inl hx
    · rw [if_neg h] at hx
      exact Or.inr (ih hx)

/-- Effect of the inner dependency loop of the generic constructor on a
bucket: the dependency clones all land in the bucket of the outer clone `c`
and nowhere else. -/
theorem lookupDeps_depFold (ds : List Dep) (g : DepGraph) (c k : Package) :
    lookupDeps (ds.foldl (fun g2 d => addEdge g2 c (depClone d)) g) k =
      if k = c then lookupDeps g k ∪ (ds.map depClone).toFinset
      else lookupDeps g k := by
  induction ds generalizing g with
  | nil => by_cases h : k = c <;> simp [h]
  | cons d ds ih =>
    simp only [List.foldl_cons]
    rw [ih]
    by_cases h : k = c
    · subst h
      rw [if_pos rfl, lookupDeps_addEdge_self]
      simp [Finset.insert_union, Finset.union_insert]
    · rw [if_neg h, if_neg h, lookupDeps_addEdge_other _ _ _ _ h]

/-- The inner dependency loop registers no new key once the outer clone is
already a key. -/
theorem directsOf_depFold (ds : List Dep) (g : DepGraph) (c : Package)
    (hc : c ∈ directsOf g) :
    directsOf (ds.foldl (fun g2 d => addEdge g2 c (depClone d)) g) =
      directsOf g := by
  induction ds generalizing g with
  | nil => rfl
  | cons d ds ih =>
    simp only [List.foldl_cons]
    rw [ih _ (by rw [directsOf_addEdge]; exact Finset.mem_insert_self _ _),
        directsOf_addEdge, Finset.insert_eq_self.mpr hc]

/-- The keys added by one iteration of the generic constructor loop: exactly
the clone of the processed package. -/
theorem directsOf_processPackage (g : DepGraph) (p : RawPackage) :
    directsOf (processPackage g p) = insert (clonePkg p) (directsOf g) := by
  unfold processPackage
  rw [directsOf_depFold _ _ _
        (by rw [directsOf_setDefault]; exact Finset.mem_insert_self _ _),
      directsOf_setDefault]

/-- The buckets after one iteration of the generic constructor loop: the
processed package's bucket gains its dependency clones, all other buckets
are untouched. -/
theorem lookupDeps_processPackage (g : DepGraph) (p : RawPackage)
    (k : Package) :
    lookupDeps (processPackage g p) k =
      if k = clonePkg p then
        lookupDeps g k ∪ (List.map depClone (p.dependencies.getD [])).toFinset
      else lookupDeps g k := by
  unfold processPackage
  rw [lookupDeps_depFold]
  by_cases h : k = clonePkg p <;> simp [h, lookupDeps_setDefault]

/-- The union, over all occurrences in the input list whose
post-normalization identity is `k`, of the dependency clones of that
occurrence: the mathematical reading of "entries accumulate dependencies". -/
def depsFor : List RawPackage → Package → Finset Package
  | [], _ => ∅
  | p :: ps, k =>
    (if clonePkg p = k then
        (List.map depClone (p.dependencies.getD [])).toFinset
      else ∅) ∪ depsFor ps k

/-- The generic constructor loop computes exactly the accumulated
dependency sets. -/
theorem lookupDeps_buildFold (ps : List RawPackage) (g : DepGraph)
    (k : Package) :
    lookupDeps (ps.foldl processPackage g) k = lookupDeps g k ∪ depsFor ps k := by
  induction ps generalizing g with
  | nil => simp [depsFor]
  | cons p ps ih =>
    simp only [List.foldl_cons, depsFor]
    rw [ih, lookupDeps_processPackage]
    by_cases h : k = clonePkg p
    · rw [if_pos h, if_pos h.symm, Finset.union_assoc]
    · rw [if_neg h, if_neg (fun h2 => h h2.symm), Finset.empty_union]

/-- The generic constructor loop registers exactly the clones of the input
packages as keys. -/
theorem directsOf_buildFold (ps : List RawPackage) (g : DepGraph) :
    directsOf (ps.foldl processPackage g) =
      directsOf g ∪ (ps.map clonePkg).toFinset := by
  induction ps generalizing g with
  | nil => simp
  | cons p ps ih =>
    simp only [List.foldl_cons, List.map_cons, List.toFinset_cons]
    rw [ih, directsOf_processPackage, Finset.insert_union, Finset.union_insert]

/-- A dependency of any occurrence contributes to the accumulated set of
its owner's identity. -/
theorem mem_depsFor (ps : List RawPackage) (p : RawPackage) (d : Dep)
    (hp : p ∈ ps) (hd : d ∈ p.dependencies.getD []) :
    depClone d ∈ depsFor ps (clonePkg p) := by
  induction ps with
  | nil => cases hp
  | cons q ps ih =>
    simp only [depsFor, Finset.mem_union]
    rcases List.mem_cons.mp hp with h | h
    · subst h
      exact Or.inl (by
        rw [if_pos rfl]
        exact List.mem_toFinset.mpr (List.mem_map_of_mem _ hd))
    · exact Or.inr (ih h)

/-- A freshly written key reads back its value. -/
theorem mapLookup_mapInsert_self (vm : List (String × String)) (k v : String) :
    mapLookup (mapInsert vm k v) k = some v := by
  induction vm with
  | nil => simp [mapInsert, mapLookup]
  | cons e rest ih =>
    obtain ⟨k2, v2⟩ := e
    by_cases h : k = k2 <;> simp [mapInsert, mapLookup, h, ih]

/-- Inversion of the dependency-loop body: on success the dependency parsed,
and the bucket of the outer clone gained exactly the dependency's clone. -/
theorem goProcessDep_ok (cv : String → String × String) (ip : String → Bool)
    (c : Package) (st st' : GoState) (d : Dep)
    (h : goProcessDep cv ip c st d = .ok st') :
    ∃ n v m, get_golang_metadata cv d.name d.version = .ok (n, v, m) ∧
      transitivesOf st'.graph =
        insert (Package.mk n v) (transitivesOf st.graph) := by
  unfold goProcessDep at h
  cases hm : get_golang_metadata cv d.name d.version with
  | error e =>
    rw [hm] at h
    exact Except.noConfusion h
  | ok t =>
    obtain ⟨n, v, m⟩ := t
    rw [hm] at h
    refine ⟨n, v, m, rfl, ?_⟩
    by_cases hip : ip v = true <;>
      simp only [hip, if_pos, if_neg, Bool.false_eq_true, ite_true, ite_false] at h <;>
      cases h <;>
      simp [transitivesOf_addEdge]

/-- Inversion of the dependency loop: on success the transitive set only
grows, every dependency in the list parsed, and each one's clone is in the
final transitive set. -/
theorem goDepLoop_ok (cv : String → String × String) (ip : String → Bool)
    (c : Package) (ds : List Dep) (st st' : GoState)
    (h : goDepLoop cv ip c st ds = .ok st') :
    transitivesOf st.graph ⊆ transitivesOf st'.graph ∧
    ∀ d ∈ ds, ∃ n v m,
      get_golang_metadata cv d.name d.version = .ok (n, v, m) ∧
      Package.mk n v ∈ transitivesOf st'.graph := by
  induction ds generalizing st with
  | nil =>
    unfold goDepLoop at h
    cases h
    exact ⟨Finset.Subset.refl _, by simp⟩
  | cons d ds ih =>
    unfold goDepLoop at h
    cases hs : goProcessDep cv ip c st d with
    | error e =>
      rw [hs] at h
      exact Except.noConfusion h
    | ok st1 =>
      rw [hs] at h
      obtain ⟨hmono, hall⟩ := ih st1 h
      obtain ⟨n, v, m, hm, htr⟩ := goProcessDep_ok cv ip c st st1 d hs
      constructor
      · intro x hx
        exact hmono (by rw [htr]; exact Finset.mem_insert_of_mem hx)
      · intro d2 hd2
        rcases List.mem_cons.mp hd2 with h2 | h2
        · subst h2
          exact ⟨n, v, m, hm,
            hmono (by rw [htr]; exact Finset.mem_insert_self _ _)⟩
        · exact hall d2 h2

/-- Inversion of the outer-loop body: on success the transitive set only
grows, and every dependency of the processed package parsed with its clone
landing in the transitive set. -/
theorem goProcessPackage_ok (cv : String → String × String)
    (ip : String → Bool) (st st' : GoState) (p : RawPackage)
    (h : goProcessPackage cv ip st p = .ok st') :
    transitivesOf st.graph ⊆ transitivesOf st'.graph ∧
    ∀ d ∈ p.dependencies.getD [], ∃ n v m,
      get_golang_metadata cv d.name d.version = .ok (n, v, m) ∧
      Package.mk n v ∈ transitivesOf st'.graph := by
  unfold goProcessPackage at h
  cases hm : get_golang_metadata cv p.name p.version with
  | error e =>
    rw [hm] at h
    exact Except.noConfusion h
  | ok t =>
    obtain ⟨n, v, m⟩ := t
    rw [hm] at h
    simp only [] at h
    by_cases hip : ip v = true
    · rw [if_pos hip] at h
      obtain ⟨hmono, hall⟩ := goDepLoop_ok cv ip _ _ _ _ h
      refine ⟨fun x hx => hmono ?_, hall⟩
      simpa [transitivesOf_setDefault] using hx
    · rw [if_neg hip] at h
      obtain ⟨hmono, hall⟩ := goDepLoop_ok cv ip _ _ _ _ h
      refine ⟨fun x hx => hmono ?_, hall⟩
      simpa [transitivesOf_setDefault] using hx

/-- On success the whole construction loop only grows the transitive set. -/
theorem goBuildAux_mono (cv : String → String × String) (ip : String → Bool)
    (ps : List RawPackage) (st st' : GoState)
    (h : goBuildAux cv ip st ps = .ok st') :
    transitivesOf st.graph ⊆ transitivesOf st'.graph := by
  induction ps generalizing st with
  | nil =>
    unfold goBuildAux at h
    cases h
    exact Finset.Subset.refl _
  | cons p ps ih =>
    unfold goBuildAux at h
    cases hs : goProcessPackage cv ip st p with
    | error e =>
      rw [hs] at h
      exact Except.noConfusion h
    | ok st1 =>
      rw [hs] at h
      exact (goProcessPackage_ok cv ip st st1 p hs).1.trans (ih st1 h)

/-- On success of the whole construction loop, every dependency of every
input package parsed and its post-normalization clone is in the final
transitive set. -/
theorem goBuildAux_deps (cv : String → String × String) (ip : String → Bool)
    (ps : List RawPackage) (st st' : GoState)
    (h : goBuildAux cv ip st ps = .ok st') :
    ∀ p ∈ ps, ∀ d ∈ p.dependencies.getD [], ∃ n v m,
      get_golang_metadata cv d.name d.version = .ok (n, v, m) ∧
      Package.mk n v ∈ transitivesOf st'.graph := by
  induction ps generalizing st with
  | nil => simp
  | cons p ps ih =>
    unfold goBuildAux at h
    cases hs : goProcessPackage cv ip st p with
    | error e =>
      rw [hs] at h
      exact Except.noConfusion h
    | ok st1 =>
      rw [hs] at h
      intro q hq d hd
      rcases List.mem_cons.mp hq with h2 | h2
      · subst h2
        obtain ⟨n, v, m, hm, hmem⟩ := (goProcessPackage_ok cv ip st st1 q hs).2 d hd
        exact ⟨n, v, m, hm, goBuildAux_mono cv ip ps st1 st' h hmem⟩
      · exact ih st1 h q h2 d hd

/-- Inversion of `goNormalize`: a successful construction is the view
structure of a successful loop run, with every derived field computed from
the final loop state. -/
theorem goNormalize_ok_inv (cv : String → String × String)
    (ip : String → Bool) (ps : List RawPackage) (e : Ecosystem)
    (g : GoNormalizedPackages) (h : goNormalize cv ip ps e = .ok g) :
    ∃ st, goBuildAux cv ip ⟨[], [], [], ∅⟩ ps = .ok st ∧
      g = ⟨e, st.graph, st.modules, st.version_map, st.pseudo,
           transitivesOf st.graph, directsOf st.graph,
           directsOf st.graph ∪ transitivesOf st.graph,
           (directsOf st.graph ∪ transitivesOf st.graph) \ st.pseudo⟩ := by
  unfold goNormalize at h
  cases hb : goBuildAux cv ip ⟨[], [], [], ∅⟩ ps with
  | error er =>
    rw [hb] at h
    exact Except.noConfusion h
  | ok st =>
    rw [hb] at h
    cases h
    exact ⟨st, rfl, rfl⟩

/-- Claim C1: in GoNormalizedPackages construction, for a dependency of a
top-level package whose cleaned version `v` the pseudo classifier reports as
pseudo, the dependency's module `m` is appended to the module list and its
bare name `n` is mapped to `v` in the version map, but the identity added to
the pseudo set is the owning top-level package's clone `c`, not the
dependency's clone `Package.mk n v`. -/
theorem claim_C1 (cv : String → String × String) (ip : String → Bool)
    (c : Package) (st : GoState) (d : Dep) (n v m : String)
    (hm : get_golang_metadata cv d.name d.version = .ok (n, v, m))
    (hps : ip v = true) (hne : Package.mk n v ≠ c)
    (hnp : Package.mk n v ∉ st.pseudo) :
    goProcessDep cv ip c st d =
      .ok ⟨addEdge st.graph c (Package.mk n v), st.modules ++ [m],
           mapInsert st.version_map n v, insert c st.pseudo⟩ ∧
    mapLookup (mapInsert st.version_map n v) n = some v ∧
    c ∈ insert c st.pseudo ∧
    Package.mk n v ∉ insert c st.pseudo := by
  refine ⟨?_, mapLookup_mapInsert_self _ _ _, Finset.mem_insert_self _ _, ?_⟩
  · unfold goProcessDep
    rw [hm]
    simp [hps]
  · intro hmem
    rcases Finset.mem_insert.mp hmem with h2 | h2
    · exact hne h2
    · exact hnp h2

/-- Witness for C1: the pseudo dependency `b@m2` at version `vp` of an
outer package with clone `(a, v0)`, starting from the empty state. -/
theorem claim_C1_witness :
    goProcessDep cvW ipW ⟨"a", "v0"⟩ ⟨[], [], [], ∅⟩ ⟨"b@m2", "vp"⟩ =
      .ok ⟨addEdge [] ⟨"a", "v0"⟩ (Package.mk "b" "vp"), [] ++ ["m2"],
           mapInsert [] "b" "vp", insert ⟨"a", "v0"⟩ ∅⟩ ∧
    mapLookup (mapInsert [] "b" "vp") "b" = some "vp" ∧
    (⟨"a", "v0"⟩ : Package) ∈ insert (⟨"a", "v0"⟩ : Package) (∅ : Finset Package) ∧
    Package.mk "b" "vp" ∉ insert (⟨"a", "v0"⟩ : Package) (∅ : Finset Package) :=
  claim_C1 cvW ipW ⟨"a", "v0"⟩ ⟨[], [], [], ∅⟩ ⟨"b@m2", "vp"⟩ "b" "vp" "m2"
    (by decide) (by decide) (by decide) (by decide)

/-- Claim C2: `get_golang_metadata` requires exactly one `@` in the name:
with no `@` it raises the bad-request `InvalidIdentifier` condition, and on
`"foo@bar"` with version `"v1.2.3"` it returns bare name `"foo"`, the
cleaned version `(cv "v1.2.3").2` (auxiliary metadata discarded) and module
`"bar"`. -/
theorem claim_C2 (cv : String → String × String) (name version : String)
    (h : '@' ∉ name.toList) :
    get_golang_metadata cv name version = .error .badRequest ∧
    get_golang_metadata cv "foo@bar" "v1.2.3" =
      .ok ("foo", (cv "v1.2.3").2, "bar") := by
  constructor
  · unfold get_golang_metadata
    rw [splitChar_eq_single '@' name.toList h]
  · rfl

/-- Witness for C2: the name "foo" contains no `@`. -/
theorem claim_C2_witness :
    get_golang_metadata cvW "foo" "v1" = .error .badRequest ∧
    get_golang_metadata cvW "foo@bar" "v1.2.3" =
      .ok ("foo", "v1.2.3", "bar") :=
  claim_C2 cvW "foo" "v1" (by decide)

/-- Claim C3: after a successful GoNormalizedPackages construction the
all-except-pseudo view is exactly the set difference All minus Pseudo:
membership is equivalent to being in All and not in Pseudo, so no identity
outside the pseudo set is ever removed. -/
theorem claim_C3 (cv : String → String × String) (ip : String → Bool)
    (ps : List RawPackage) (e : Ecosystem) (g : GoNormalizedPackages)
    (x : Package) (h : goNormalize cv ip ps e = .ok g) :
    g.all_deps_without_pseudo = g.all \ g.pseudo ∧
    (x ∈ g.all_deps_without_pseudo ↔ x ∈ g.all ∧ x ∉ g.pseudo) := by
  obtain ⟨st, hb, rfl⟩ := goNormalize_ok_inv cv ip ps e g h
  exact ⟨rfl, Finset.mem_sdiff⟩

/-- Witness for C3 at the concrete construction `goNormalize cvW ipW psW`. -/
theorem claim_C3_witness :
    gW.all_deps_without_pseudo = gW.all \ gW.pseudo ∧
    (Package.mk "b" "vp" ∈ gW.all_deps_without_pseudo ↔
      Package.mk "b" "vp" ∈ gW.all ∧ Package.mk "b" "vp" ∉ gW.pseudo) :=
  claim_C3 cvW ipW psW Ecosystem.golang gW (Package.mk "b" "vp") (by decide)

/-- Claim C4: every top-level package of the input is a key of the generic
dependency graph by its post-normalization identity (`clonePkg`), even with
zero dependencies, and the graph entry of that identity is the accumulated
union `depsFor` of the dependency lists of ALL its occurrences — later
occurrences never erase earlier ones. -/
theorem claim_C4 (ps : List RawPackage) (p : RawPackage) (hp : p ∈ ps) :
    clonePkg p ∈ directsOf (buildGraph ps) ∧
    lookupDeps (buildGraph ps) (clonePkg p) = depsFor ps (clonePkg p) := by
  constructor
  · unfold buildGraph
    rw [directsOf_buildFold]
    exact Finset.mem_union_right _
      (List.mem_toFinset.mpr (List.mem_map_of_mem _ hp))
  · unfold buildGraph
    rw [lookupDeps_buildFold]
    have h0 : lookupDeps [] (clonePkg p) = ∅ := rfl
    rw [h0, Finset.empty_union]

/-- Witness for C4: the identity `(a, 1)` occurs twice, once with dependency
`b` and once with dependency `c`; it is a key and its entry accumulates both
dependency lists. -/
theorem claim_C4_witness :
    clonePkg ⟨"a", "1", some [⟨"b", "1"⟩]⟩ ∈
      directsOf (buildGraph
        [⟨"a", "1", some [⟨"b", "1"⟩]⟩, ⟨"a", "1", some [⟨"c", "1"⟩]⟩]) ∧
    lookupDeps
        (buildGraph [⟨"a", "1", some [⟨"b", "1"⟩]⟩, ⟨"a", "1", some [⟨"c", "1"⟩]⟩])
        (clonePkg ⟨"a", "1", some [⟨"b", "1"⟩]⟩) =
      depsFor [⟨"a", "1", some [⟨"b", "1"⟩]⟩, ⟨"a", "1", some [⟨"c", "1"⟩]⟩]
        (clonePkg ⟨"a", "1", some [⟨"b", "1"⟩]⟩) :=
  claim_C4 _ _ (by decide)

/-- Claim C5: after construction the derived sets satisfy
Directs ∪ Transitives = All (both in the generic and in the Go variant),
and every identity appearing in a top-level package's dependency list is a
member of Transitives (generic: the raw identity; Go: the parsed
bare-name/cleaned-version identity). -/
theorem claim_C5 (ps : List RawPackage) (e : Ecosystem)
    (cv : String → String × String) (ip : String → Bool)
    (g : GoNormalizedPackages) (p : RawPackage) (d : Dep) (n v m : String)
    (hgo : goNormalize cv ip ps e = .ok g) (hp : p ∈ ps)
    (hd : d ∈ p.dependencies.getD [])
    (hm : get_golang_metadata cv d.name d.version = .ok (n, v, m)) :
    (NormalizedPackages.construct ps e).directs ∪
        (NormalizedPackages.construct ps e).transtives =
      (NormalizedPackages.construct ps e).all ∧
    depClone d ∈ (NormalizedPackages.construct ps e).transtives ∧
    g.directs ∪ g.transtives = g.all ∧
    Package.mk n v ∈ g.transtives := by
  obtain ⟨st, hb, rfl⟩ := goNormalize_ok_inv cv ip ps e g hgo
  refine ⟨rfl, ?_, rfl, ?_⟩
  · show depClone d ∈ transitivesOf (buildGraph ps)
    have h1 : depClone d ∈ lookupDeps (buildGraph ps) (clonePkg p) := by
      unfold buildGraph
      rw [lookupDeps_buildFold]
      have h0 : lookupDeps [] (clonePkg p) = ∅ := rfl
      rw [h0, Finset.empty_union]
      exact mem_depsFor ps p d hp hd
    exact mem_transitivesOf_of_mem_lookupDeps _ _ _ h1
  · obtain ⟨n2, v2, m2, hm2, hmem⟩ := goBuildAux_deps cv ip ps _ st hb p hp d hd
    rw [hm] at hm2
    simp only [Except.ok.injEq, Prod.mk.injEq] at hm2
    obtain ⟨hn, hv, hm3⟩ := hm2
    subst hn
    subst hv
    exact hmem

/-- Witness for C5 at the concrete construction `goNormalize cvW ipW psW`. -/
theorem claim_C5_witness :
    (NormalizedPackages.construct psW Ecosystem.golang).directs ∪
        (NormalizedPackages.construct psW Ecosystem.golang).transtives =
      (NormalizedPackages.construct psW Ecosystem.golang).all ∧
    depClone ⟨"b@m2", "vp"⟩ ∈
      (NormalizedPackages.construct psW Ecosystem.golang).transtives ∧
    gW.directs ∪ gW.transtives = gW.all ∧
    Package.mk "b" "vp" ∈ gW.transtives :=
  claim_C5 psW Ecosystem.golang cvW ipW gW ⟨"a@m1", "v0", some [⟨"b@m2", "vp"⟩]⟩
    ⟨"b@m2", "vp"⟩ "b" "vp" "m2" (by decide) (by decide) (by decide) (by decide)

/-- Claim C6 counterexample: the generic Normalizer constructed with the
module-based (golang) ecosystem tag does NOT strip the module suffix: the
input name `"foo@bar"` is used unchanged as the key identity, whose name is
not the stripped `"foo"`. -/
theorem claim_C6_counterexample :
    directsOf (buildGraph [⟨"foo@bar", "v1", none⟩]) =
      {Package.mk "foo@bar" "v1"} ∧
    (NormalizedPackages.construct [⟨"foo@bar", "v1", none⟩]
        Ecosystem.golang).directs = {Package.mk "foo@bar" "v1"} ∧
    Package.mk "foo@bar" "v1" ≠ Package.mk "foo" "v1" :=
  ⟨by decide, by decide, by decide⟩

/-- Claim C6 (amended): the generic Normalizer uses name and version
unchanged for EVERY ecosystem, including the module-based one: its keys are
exactly the unmodified input identities and its graph does not depend on the
ecosystem tag. -/
theorem claim_C6_amended (ps : List RawPackage) (e : Ecosystem) :
    (NormalizedPackages.construct ps e).directs = (ps.map clonePkg).toFinset ∧
    (NormalizedPackages.construct ps e).dependency_graph =
      (NormalizedPackages.construct ps Ecosystem.npm).dependency_graph := by
  constructor
  · show directsOf (buildGraph ps) = _
    unfold buildGraph
    rw [directsOf_buildFold]
    have h0 : directsOf ([] : DepGraph) = ∅ := rfl
    rw [h0, Finset.empty_union]
  · rfl

/-- Claim C7: GoNormalizedPackages construction is atomic: for every input
it either fully succeeds with a result object or raises an error, and never
both — an error yields no (partial) object at all. -/
theorem claim_C7 (cv : String → String × String) (ip : String → Bool)
    (ps : List RawPackage) (e : Ecosystem) :
    ((∃ g, goNormalize cv ip ps e = .ok g) ∨
      (∃ er, goNormalize cv ip ps e = .error er)) ∧
    ¬((∃ g, goNormalize cv ip ps e = .ok g) ∧
      (∃ er, goNormalize cv ip ps e = .error er)) := by
  constructor
  · cases h : goNormalize cv ip ps e with
    | error er => exact Or.inr ⟨er, rfl⟩
    | ok g => exact Or.inl ⟨g, rfl⟩
  · rintro ⟨⟨g, hg⟩, ⟨er, her⟩⟩
    rw [hg] at her
    exact Except.noConfusion her

/-- Claim C8: constructing twice from the same input with the same
(deterministic) collaborators yields equal direct, transitive and all sets
and an equal dependency graph, for both the generic and the Go variant; the
sets are `Finset`s, so equality is order-independent. -/
theorem claim_C8 (ps : List RawPackage) (e : Ecosystem)
    (cv : String → String × String) (ip : String → Bool)
    (n1 n2 : NormalizedPackages) (r1 r2 : Except GoError GoNormalizedPackages)
    (h1 : n1 = NormalizedPackages.construct ps e)
    (h2 : n2 = NormalizedPackages.construct ps e)
    (h3 : r1 = goNormalize cv ip ps e) (h4 : r2 = goNormalize cv ip ps e) :
    n1.directs = n2.directs ∧ n1.transtives = n2.transtives ∧
    n1.all = n2.all ∧ n1.dependency_graph = n2.dependency_graph ∧
    r1 = r2 := by
  subst h1
  subst h2
  subst h3
  subst h4
  exact ⟨rfl, rfl, rfl, rfl, rfl⟩

/-- Witness for C8 at the concrete input `psW`. -/
theorem claim_C8_witness :
    (NormalizedPackages.construct psW Ecosystem.golang).directs =
      (NormalizedPackages.construct psW Ecosystem.golang).directs ∧
    (NormalizedPackages.construct psW Ecosystem.golang).transtives =
      (NormalizedPackages.construct psW Ecosystem.golang).transtives ∧
    (NormalizedPackages.construct psW Ecosystem.golang).all =
      (NormalizedPackages.construct psW Ecosystem.golang).all ∧
    (NormalizedPackages.construct psW Ecosystem.golang).dependency_graph =
      (NormalizedPackages.construct psW Ecosystem.golang).dependency_graph ∧
    goNormalize cvW ipW psW Ecosystem.golang =
      goNormalize cvW ipW psW Ecosystem.golang :=
  claim_C8 psW Ecosystem.golang cvW ipW _ _ _ _ rfl rfl rfl rfl

/-- Claim C9: a name with more than one `@` (two or more occurrences) makes
`get_golang_metadata` fail with the plain tuple-unpacking `ValueError`, not
with the bad-request `InvalidIdentifier` error: the code only checks for the
absence of `@` before unconditionally unpacking a two-way split. -/
theorem claim_C9 (cv : String → String × String) (name version : String)
    (h : 2 ≤ name.toList.count '@') :
    get_golang_metadata cv name version = .error .valueError ∧
    get_golang_metadata cv name version ≠ .error .badRequest := by
  have hlen : 3 ≤ (splitChar '@' name.toList).length := by
    rw [splitChar_length]
    omega
  have hval : get_golang_metadata cv name version = .error .valueError := by
    unfold get_golang_metadata
    cases hs : splitChar '@' name.toList with
    | nil => rfl
    | cons a t =>
      cases t with
      | nil =>
        rw [hs] at hlen
        simp at hlen
      | cons b t2 =>
        cases t2 with
        | nil =>
          rw [hs] at hlen
          simp at hlen
        | cons c2 t3 => rfl
  refine ⟨hval, ?_⟩
  rw [hval]
  simp

/-- Witness for C9: the name "foo@bar@baz" has two `@`s. -/
theorem claim_C9_witness :
    get_golang_metadata cvW "foo@bar@baz" "v1" = .error .valueError ∧
    get_golang_metadata cvW "foo@bar@baz" "v1" ≠ .error .badRequest :=
  claim_C9 cvW "foo@bar@baz" "v1" (by decide)

/-- Claim C10: a pseudo-versioned dependency whose parsed identity is not in
the pseudo set stays in `all_deps_without_pseudo`: only the owning package's
identity is excluded there, never the pseudo dependency itself. -/
theorem claim_C10 (cv : String → String × String) (ip : String → Bool)
    (ps : List RawPackage) (e : Ecosystem) (g : GoNormalizedPackages)
    (p : RawPackage) (d : Dep) (n v m : String)
    (hgo : goNormalize cv ip ps e = .ok g) (hp : p ∈ ps)
    (hd : d ∈ p.dependencies.getD [])
    (hm : get_golang_metadata cv d.name d.version = .ok (n, v, m))
    (hps : ip v = true) (hnp : Package.mk n v ∉ g.pseudo) :
    Package.mk n v ∈ g.all_deps_without_pseudo := by
  obtain ⟨st, hb, rfl⟩ := goNormalize_ok_inv cv ip ps e g hgo
  obtain ⟨n2, v2, m2, hm2, hmem⟩ := goBuildAux_deps cv ip ps _ st hb p hp d hd
  rw [hm] at hm2
  simp only [Except.ok.injEq, Prod.mk.injEq] at hm2
  obtain ⟨hn, hv, hm3⟩ := hm2
  subst hn
  subst hv
  show Package.mk n v ∈
    (directsOf st.graph ∪ transitivesOf st.graph) \ st.pseudo
  exact Finset.mem_sdiff.mpr ⟨Finset.mem_union_right _ hmem, hnp⟩

/-- Witness for C10: the pseudo dependency `(b, vp)` of `(a, v0)` is not in
the pseudo set (which holds the owner `(a, v0)`) and stays in the
all-except-pseudo view. -/
theorem claim_C10_witness :
    Package.mk "b" "vp" ∈ gW.all_deps_without_pseudo :=
  claim_C10 cvW ipW psW Ecosystem.golang gW ⟨"a@m1", "v0", some [⟨"b@m2", "vp"⟩]⟩
    ⟨"b@m2", "vp"⟩ "b" "vp" "m2" (by decide) (by decide) (by decide)
    (by decide) (by decide) (by decide)
